import Mathlib

/-!
Verification of the ChakaBNB offline-cache service worker (`sw.js`).

The worker registers three event handlers:
* `install`  — opens the cache generation named `CACHE_NAME` and populates it
  with `cache.addAll(urlsToCache)`;
* `fetch`    — serves `caches.match(request)` on a hit, otherwise fetches from
  the network, caching a clone when the status is 200 and the type basic, with
  a navigation fallback to the cached `/index.html` on network failure;
* `activate` — deletes every cache whose name differs from `CACHE_NAME`.

The embedding below models cache storage as an association list of named
caches (a cache is an association list from request URL to the stored
response), the network as a partial function from URL to response (`none`
models a rejected fetch), and each handler as a pure state transformer.
Platform semantics that the worker relies on are modelled after the Service
Worker / Cache API specification: `cache.addAll` fetches every listed URL and
rejects the whole batch (storing nothing) if any fetch rejects or any
response has a non-ok status; `caches.match` searches the caches in creation
order and returns the first matching entry; `cache.put` replaces any existing
entry for the same request key.
-/

namespace SW

/-- Response type as exposed by the Fetch API (`response.type`). -/
inductive ResponseType where
  | basic
  | cors
  | nontransparent
  | errorType
deriving DecidableEq, Repr

/-- A captured HTTP response: status code, fetch response type, and body. -/
structure Response where
  status : Nat
  rtype : ResponseType
  body : String
deriving DecidableEq, Repr

/-- An intercepted request: its URL and whether its mode is navigate. -/
structure Request where
  url : String
  navigate : Bool
deriving DecidableEq, Repr

/-- One cache generation: association list from request URL to stored response. -/
abbrev Cache := List (String × Response)

/-- The cache storage area: association list from generation name to cache. -/
abbrev CacheStorage := List (String × Cache)

/-- The network: a fetch of a URL either rejects (`none`) or resolves with a
response. -/
abbrev Network := String → Option Response

/-- `CACHE_NAME` from `sw.js`. -/
def CACHE_NAME : String := "chakabnb-v1"

/-- `urlsToCache` from `sw.js`: the fixed install manifest. -/
def urlsToCache : List String :=
  [ "/"
  , "/index.html"
  , "/search-results.html"
  , "/property-detail.html"
  , "/login.html"
  , "/register.html"
  , "/list-property.html"
  , "/logo.png"
  , "/js/security.js"
  , "/js/error-handler.js"
  , "/js/accessibility.js"
  , "/js/seo-optimizer.js"
  , "https://cdn.tailwindcss.com"
  , "https://cdn.jsdelivr.net/npm/feather-icons/dist/feather.min.js"
  , "https://unpkg.com/aos@2.3.1/dist/aos.js"
  , "https://unpkg.com/leaflet@1.9.4/dist/leaflet.js"
  , "https://fonts.googleapis.com/css2?family=Poppins:wght@300;400;500;600;700&display=swap"
  ]

/-- An ok status in the sense of the Fetch specification (the 2xx range);
`Cache.addAll` rejects any response whose status is not ok. -/
def responseOk (r : Response) : Bool :=
  200 ≤ r.status && r.status ≤ 299

/-- `cache.match(url)`: first entry stored under the URL, if any. -/
def cacheMatch (c : Cache) (url : String) : Option Response :=
  match c with
  | [] => none
  | e :: rest => if e.1 = url then some e.2 else cacheMatch rest url

/-- `cache.put(url, r)`: replace any entry for the same key, then append. -/
def cachePut (c : Cache) (url : String) (r : Response) : Cache :=
  c.filter (fun e => e.1 != url) ++ [(url, r)]

/-- `caches.open(name)`: create the named cache (empty, appended in creation
order) when absent; otherwise leave storage unchanged. -/
def cachesOpen (s : CacheStorage) (name : String) : CacheStorage :=
  match s with
  | [] => [(name, [])]
  | nc :: rest => if nc.1 = name then nc :: rest else nc :: cachesOpen rest name

/-- `caches.match(url)`: search caches in creation order, return the first
matching entry. -/
def cachesMatch (s : CacheStorage) (url : String) : Option Response :=
  match s with
  | [] => none
  | nc :: rest =>
    match cacheMatch nc.2 url with
    | some r => some r
    | none => cachesMatch rest url

/-- `caches.open(name)` followed by `cache.put(url, r)` on the opened cache. -/
def storagePut (s : CacheStorage) (name url : String) (r : Response) : CacheStorage :=
  match s with
  | [] => [(name, cachePut [] url r)]
  | nc :: rest =>
    if nc.1 = name then (nc.1, cachePut nc.2 url r) :: rest
    else nc :: storagePut rest name url r

/-- Contents of the named cache (empty when the cache does not exist). -/
def getCache (s : CacheStorage) (name : String) : Cache :=
  match s with
  | [] => []
  | nc :: rest => if nc.1 = name then nc.2 else getCache rest name

/-- The fetch phase of `cache.addAll(urls)`: fetch every URL in order; reject
the whole batch if any fetch rejects or any response has a non-ok status. -/
def fetchAll (net : Network) : List String → Option (List (String × Response))
  | [] => some []
  | u :: rest =>
    match net u with
    | none => none
    | some r =>
      if responseOk r then
        match fetchAll net rest with
        | none => none
        | some es => some ((u, r) :: es)
      else none

/-- Batch-put of fetched manifest entries into the named cache, creating it
when absent (the storage phase of `caches.open` + `cache.addAll`). -/
def storageAddAll (s : CacheStorage) (name : String)
    (entries : List (String × Response)) : CacheStorage :=
  match s with
  | [] => [(name, entries.foldl (fun c e => cachePut c e.1 e.2) [])]
  | nc :: rest =>
    if nc.1 = name then (nc.1, entries.foldl (fun c e => cachePut c e.1 e.2) nc.2) :: rest
    else nc :: storageAddAll rest name entries

/-- The `install` handler: `caches.open(CACHE_NAME).then(cache =>
cache.addAll(urlsToCache))`. Returns whether install succeeded, and the
resulting storage. When `addAll` rejects, the install step fails but the
`caches.open` side effect persists and no entry has been stored. -/
def install (net : Network) (s : CacheStorage) : Bool × CacheStorage :=
  match fetchAll net urlsToCache with
  | none => (false, cachesOpen s CACHE_NAME)
  | some entries => (true, storageAddAll s CACHE_NAME entries)

/-- Outcome of one fetch interception: what was returned to the caller, the
resulting cache storage, and how many network fetches were performed. -/
inductive FetchResult where
  | cacheHit (r : Response)
  | fromNetwork (r : Response)
  | offlinePage (r : Response)
  | failed
deriving DecidableEq, Repr

/-- Full observable outcome of one fetch interception. -/
structure FetchOutcome where
  result : FetchResult
  storage : CacheStorage
  networkCalls : Nat
deriving DecidableEq, Repr

/-- The `fetch` handler. `putOk` models whether the fire-and-forget
`caches.open(CACHE_NAME).then(cache => cache.put(...))` write succeeds; the
code neither awaits it nor handles its failure, so it can only affect the
resulting storage, never the returned response. The `catch` branch returns
the cached `/index.html` for navigation requests and `undefined` (a failure
surfaced to the caller) otherwise. -/
def handleFetchW (net : Network) (putOk : Bool) (s : CacheStorage)
    (req : Request) : FetchOutcome :=
  match cachesMatch s req.url with
  | some r => ⟨.cacheHit r, s, 0⟩
  | none =>
    match net req.url with
    | some r =>
      if r.status = 200 ∧ r.rtype = ResponseType.basic then
        ⟨.fromNetwork r, if putOk then storagePut s CACHE_NAME req.url r else s, 1⟩
      else
        ⟨.fromNetwork r, s, 1⟩
    | none =>
      if req.navigate then
        match cachesMatch s "/index.html" with
        | some r => ⟨.offlinePage r, s, 1⟩
        | none => ⟨.failed, s, 1⟩
      else ⟨.failed, s, 1⟩

/-- The `fetch` handler with the cache write succeeding (the normal run). -/
def handleFetch (net : Network) (s : CacheStorage) (req : Request) : FetchOutcome :=
  handleFetchW net true s req

/-- The `activate` handler: delete every cache whose name differs from
`CACHE_NAME`. -/
def activate (s : CacheStorage) : CacheStorage :=
  s.filter (fun nc => nc.1 == CACHE_NAME)

/-! Concrete environments used to exercise the handlers. -/

/-- A network on which every fetch resolves with a 200 basic response. -/
def okNet : Network := fun _ => some ⟨200, .basic, "ok"⟩

/-- A fully unreachable network: every fetch rejects. -/
def downNet : Network := fun _ => none

/-- A network on which the cross-origin Tailwind CDN URL resolves with a 200
response of type `cors`, and everything else with a 200 basic response. -/
def corsNet : Network := fun u =>
  if u = "https://cdn.tailwindcss.com" then some ⟨200, .cors, "tw"⟩
  else some ⟨200, .basic, "ok"⟩

/-- A network on which every fetch resolves with `204 No Content`, a basic
response whose status is in the success (2xx) range but is not 200. -/
def net204 : Network := fun _ => some ⟨204, .basic, "nc"⟩

/-- A sample stored home document. -/
def homePage : Response := ⟨200, .basic, "home"⟩

/-- A storage holding the current generation with the home document stored. -/
def demoStorage : CacheStorage := [("chakabnb-v1", [("/index.html", homePage)])]

/-- A storage holding a superseded generation next to the current one. -/
def demoOld : CacheStorage :=
  [("chakabnb-v0", []), ("chakabnb-v1", [("/index.html", homePage)])]

/-- Invariant: every entry stored in any generation has a success (2xx)
status. -/
def InvOk (s : CacheStorage) : Prop :=
  ∀ nc ∈ s, ∀ e ∈ nc.2, responseOk e.2 = true

/-! Helper lemmas about the cache primitives. -/

theorem cacheMatch_isSome_iff (c : Cache) (u : String) :
    (cacheMatch c u).isSome ↔ u ∈ c.map Prod.fst := by
  induction c with
  | nil => simp [cacheMatch]
  | cons e es ih =>
    by_cases h : e.1 = u
    · simp [cacheMatch, h]
    · simp [cacheMatch, h, ih, Ne.symm h]

theorem cacheMatch_append (a b : Cache) (u : String) :
    cacheMatch (a ++ b) u
      = match cacheMatch a u with
        | some r => some r
        | none => cacheMatch b u := by
  induction a with
  | nil => simp [cacheMatch]
  | cons e es ih =>
    by_cases h : e.1 = u <;> simp [cacheMatch, h, ih]

theorem cacheMatch_filter_ne (c : Cache) (u : String) :
    cacheMatch (c.filter (fun e => e.1 != u)) u = none := by
  induction c with
  | nil => simp [cacheMatch]
  | cons e es ih =>
    by_cases h : e.1 = u
    · simp [List.filter_cons, h, ih]
    · simp [List.filter_cons, h, cacheMatch, ih]

theorem cacheMatch_put_self (c : Cache) (u : String) (r : Response) :
    cacheMatch (cachePut c u r) u = some r := by
  unfold cachePut
  rw [cacheMatch_append, cacheMatch_filter_ne]
  simp [cacheMatch]

theorem key_mem_cachePut (c : Cache) (v u : String) (r : Response)
    (h : u ∈ c.map Prod.fst ∨ u = v) :
    u ∈ (cachePut c v r).map Prod.fst := by
  by_cases huv : u = v
  · simp [cachePut, huv]
  · rcases h with hmem | rfl
    · obtain ⟨kv, hkvc, hfst⟩ := List.mem_map.1 hmem
      refine List.mem_map.2 ⟨kv, ?_, hfst⟩
      refine List.mem_append_left _ (List.mem_filter.2 ⟨hkvc, ?_⟩)
      simpa [bne_iff_ne, hfst] using huv
    · exact absurd rfl huv

theorem foldl_put_preserves_key (entries : List (String × Response)) (c : Cache)
    (u : String) (h : u ∈ c.map Prod.fst) :
    u ∈ ((entries.foldl (fun c e => cachePut c e.1 e.2) c)).map Prod.fst := by
  induction entries generalizing c with
  | nil => simpa using h
  | cons e es ih =>
    exact ih (cachePut c e.1 e.2) (key_mem_cachePut c e.1 u e.2 (Or.inl h))

theorem foldl_put_key_of_mem (entries : List (String × Response)) (c : Cache)
    (u : String) (h : u ∈ entries.map Prod.fst) :
    u ∈ ((entries.foldl (fun c e => cachePut c e.1 e.2) c)).map Prod.fst := by
  induction entries generalizing c with
  | nil => simp at h
  | cons e es ih =>
    rcases List.mem_cons.1 h with heq | hmem
    · exact foldl_put_preserves_key es (cachePut c e.1 e.2) u
        (key_mem_cachePut c e.1 u e.2 (Or.inr heq))
    · exact ih (cachePut c e.1 e.2) hmem

theorem foldl_put_char (entries : List (String × Response)) (c : Cache)
    (h : (entries.map Prod.fst).Nodup) :
    entries.foldl (fun c e => cachePut c e.1 e.2) c
      = c.filter (fun kv => !decide (kv.1 ∈ entries.map Prod.fst)) ++ entries := by
  induction entries generalizing c with
  | nil => simp
  | cons e es ih =>
    rw [List.map_cons] at h
    obtain ⟨hns, hnd⟩ := List.nodup_cons.1 h
    rw [List.foldl_cons, ih (cachePut c e.1 e.2) hnd]
    unfold cachePut
    rw [List.filter_append, List.filter_filter]
    have h1 : List.filter (fun kv => !decide (kv.1 ∈ es.map Prod.fst)) [(e.1, e.2)]
        = [(e.1, e.2)] := by
      simp [hns]
    have h2 : c.filter (fun kv => (!decide (kv.1 ∈ es.map Prod.fst)) && (kv.1 != e.1))
        = c.filter (fun kv => !decide (kv.1 ∈ (e :: es).map Prod.fst)) := by
      refine List.filter_congr (fun kv _ => ?_)
      by_cases h3 : kv.1 = e.1 <;> by_cases h4 : kv.1 ∈ es.map Prod.fst <;>
        simp [h3, h4, List.mem_cons]
    rw [h1, h2]
    simp

theorem foldl_put_idem (entries : List (String × Response)) (c : Cache)
    (h : (entries.map Prod.fst).Nodup) :
    entries.foldl (fun c e => cachePut c e.1 e.2)
        (entries.foldl (fun c e => cachePut c e.1 e.2) c)
      = entries.foldl (fun c e => cachePut c e.1 e.2) c := by
  rw [foldl_put_char entries c h, foldl_put_char entries _ h, List.filter_append]
  have h1 : entries.filter (fun kv => !decide (kv.1 ∈ entries.map Prod.fst)) = [] := by
    refine List.filter_eq_nil_iff.2 (fun kv hkv => ?_)
    simp [List.mem_map.2 ⟨kv, hkv, rfl⟩]
  have h2 : (c.filter (fun kv => !decide (kv.1 ∈ entries.map Prod.fst))).filter
        (fun kv => !decide (kv.1 ∈ entries.map Prod.fst))
      = c.filter (fun kv => !decide (kv.1 ∈ entries.map Prod.fst)) := by
    rw [List.filter_filter]
    exact List.filter_congr (fun kv _ => Bool.and_self _)
  rw [h1, h2]
  simp

theorem cachesOpen_idem (s : CacheStorage) (n : String) :
    cachesOpen (cachesOpen s n) n = cachesOpen s n := by
  induction s with
  | nil => simp [cachesOpen]
  | cons nc rest ih =>
    by_cases h : nc.1 = n <;> simp [cachesOpen, h, ih]

theorem getCache_cachesOpen (s : CacheStorage) (n : String) :
    getCache (cachesOpen s n) n = getCache s n := by
  induction s with
  | nil => simp [cachesOpen, getCache]
  | cons nc rest ih =>
    by_cases h : nc.1 = n <;> simp [cachesOpen, getCache, h, ih]

theorem storageAddAll_idem (s : CacheStorage) (n : String)
    (entries : List (String × Response)) (h : (entries.map Prod.fst).Nodup) :
    storageAddAll (storageAddAll s n entries) n entries
      = storageAddAll s n entries := by
  induction s with
  | nil =>
    simp [storageAddAll, foldl_put_idem entries [] h]
  | cons nc rest ih =>
    by_cases hn : nc.1 = n
    · simp [storageAddAll, hn, foldl_put_idem entries nc.2 h]
    · simp [storageAddAll, hn, ih]

theorem getCache_storageAddAll (s : CacheStorage) (n : String)
    (entries : List (String × Response)) :
    getCache (storageAddAll s n entries) n
      = entries.foldl (fun c e => cachePut c e.1 e.2) (getCache s n) := by
  induction s with
  | nil => simp [storageAddAll, getCache]
  | cons nc rest ih =>
    by_cases h : nc.1 = n <;> simp [storageAddAll, getCache, h, ih]

theorem storageAddAll_names (s : CacheStorage) (n : String)
    (entries : List (String × Response)) :
    (storageAddAll s n entries).map Prod.fst = (cachesOpen s n).map Prod.fst := by
  induction s with
  | nil => simp [storageAddAll, cachesOpen]
  | cons nc rest ih =>
    by_cases h : nc.1 = n <;> simp [storageAddAll, cachesOpen, h, ih]

theorem mem_names_cachesOpen (s : CacheStorage) (n : String) :
    n ∈ (cachesOpen s n).map Prod.fst := by
  induction s with
  | nil => simp [cachesOpen]
  | cons nc rest ih =>
    by_cases h : nc.1 = n <;> simp [cachesOpen, h, ih]

theorem names_cachesOpen_sub (s : CacheStorage) (n x : String)
    (h : x ∈ (cachesOpen s n).map Prod.fst) : x ∈ s.map Prod.fst ∨ x = n := by
  induction s with
  | nil => simpa [cachesOpen] using h
  | cons nc rest ih =>
    by_cases hn : nc.1 = n
    · simp only [cachesOpen, if_pos hn] at h
      exact Or.inl h
    · simp only [cachesOpen, if_neg hn, List.map_cons, List.mem_cons] at h
      rcases h with rfl | h
      · exact Or.inl (by simp)
      · rcases ih h with h | h
        · exact Or.inl (List.mem_cons.2 (Or.inr h))
        · exact Or.inr h

theorem names_cachesOpen_nodup (s : CacheStorage) (n : String)
    (h : (s.map Prod.fst).Nodup) : ((cachesOpen s n).map Prod.fst).Nodup := by
  induction s with
  | nil => simp [cachesOpen]
  | cons nc rest ih =>
    rw [List.map_cons] at h
    obtain ⟨h1, h2⟩ := List.nodup_cons.1 h
    by_cases hn : nc.1 = n
    · simpa [cachesOpen, hn] using h
    · simp only [cachesOpen, if_neg hn, List.map_cons, List.nodup_cons]
      refine ⟨fun hmem => ?_, ih h2⟩
      rcases names_cachesOpen_sub rest n nc.1 hmem with hmem | hmem
      · exact h1 hmem
      · exact hn hmem

theorem filter_beq_singleton (l : List String) (a : String)
    (hnd : l.Nodup) (ha : a ∈ l) : l.filter (fun x => x == a) = [a] := by
  induction l with
  | nil => cases ha
  | cons b rest ih =>
    obtain ⟨h1, h2⟩ := List.nodup_cons.1 hnd
    by_cases hb : b = a
    · subst hb
      have hres : rest.filter (fun x => x == b) = [] := by
        refine List.filter_eq_nil_iff.2 (fun x hx => ?_)
        simp only [beq_iff_eq]
        intro he
        exact h1 (he ▸ hx)
      simp [List.filter_cons, hres]
    · have ha' : a ∈ rest := by
        rcases List.mem_cons.1 ha with rfl | hm
        · exact absurd rfl hb
        · exact hm
      simp [List.filter_cons, hb, ih h2 ha']

theorem activate_cons (nc : String × Cache) (rest : CacheStorage) :
    activate (nc :: rest)
      = if nc.1 = CACHE_NAME then nc :: activate rest else activate rest := by
  by_cases h : nc.1 = CACHE_NAME <;> simp [activate, List.filter_cons, h]

theorem activate_names (s : CacheStorage) :
    (activate s).map Prod.fst
      = (s.map Prod.fst).filter (fun x => x == CACHE_NAME) := by
  induction s with
  | nil => simp [activate]
  | cons nc rest ih =>
    rw [activate_cons]
    by_cases h : nc.1 = CACHE_NAME
    · rw [if_pos h]
      simp [List.filter_cons, h, ih]
    · rw [if_neg h]
      simp [List.filter_cons, h, ih]

theorem getCache_activate (s : CacheStorage) :
    getCache (activate s) CACHE_NAME = getCache s CACHE_NAME := by
  induction s with
  | nil => simp [activate]
  | cons nc rest ih =>
    rw [activate_cons]
    by_cases h : nc.1 = CACHE_NAME
    · rw [if_pos h]
      simp [getCache, h]
    · rw [if_neg h]
      simp [getCache, h, ih]

theorem fetchAll_keys (net : Network) (urls : List String)
    (entries : List (String × Response)) (h : fetchAll net urls = some entries) :
    entries.map Prod.fst = urls := by
  induction urls generalizing entries with
  | nil =>
    simp only [fetchAll, Option.some.injEq] at h
    subst h; simp
  | cons u rest ih =>
    unfold fetchAll at h
    cases hn : net u with
    | none => exact Option.noConfusion (hn ▸ h)
    | some r =>
      rw [hn] at h
      dsimp only at h
      by_cases hok : responseOk r
      · rw [if_pos hok] at h
        cases hf : fetchAll net rest with
        | none => exact Option.noConfusion (hf ▸ h)
        | some es =>
          rw [hf] at h
          dsimp only at h
          simp only [Option.some.injEq] at h
          subst h
          simp [ih es hf]
      · rw [if_neg hok] at h
        simp at h

theorem fetchAll_mem_ok (net : Network) (urls : List String)
    (entries : List (String × Response)) (h : fetchAll net urls = some entries) :
    ∀ e ∈ entries, responseOk e.2 = true ∧ net e.1 = some e.2 := by
  induction urls generalizing entries with
  | nil =>
    simp only [fetchAll, Option.some.injEq] at h
    subst h; simp
  | cons u rest ih =>
    unfold fetchAll at h
    cases hn : net u with
    | none => exact Option.noConfusion (hn ▸ h)
    | some r =>
      rw [hn] at h
      dsimp only at h
      by_cases hok : responseOk r
      · rw [if_pos hok] at h
        cases hf : fetchAll net rest with
        | none => exact Option.noConfusion (hf ▸ h)
        | some es =>
          rw [hf] at h
          dsimp only at h
          simp only [Option.some.injEq] at h
          subst h
          intro e he
          rcases List.mem_cons.1 he with rfl | hmem
          · exact ⟨hok, hn⟩
          · exact ih es hf e hmem
      · rw [if_neg hok] at h
        simp at h

theorem fetchAll_eq_none (net : Network) (urls : List String) (u : String)
    (hu : u ∈ urls) (hf : net u = none) : fetchAll net urls = none := by
  induction urls with
  | nil => cases hu
  | cons v rest ih =>
    unfold fetchAll
    rcases List.mem_cons.1 hu with rfl | hmem
    · rw [hf]
    · cases hn : net v with
      | none => rfl
      | some r =>
        dsimp only
        by_cases hok : responseOk r
        · rw [if_pos hok, ih hmem]
        · rw [if_neg hok]

theorem cachesMatch_storagePut_self (s : CacheStorage) (n u : String) (r : Response)
    (h : cachesMatch s u = none) :
    cachesMatch (storagePut s n u r) u = some r := by
  induction s with
  | nil => simp [storagePut, cachesMatch, cacheMatch_put_self]
  | cons nc rest ih =>
    have hm : cacheMatch nc.2 u = none := by
      unfold cachesMatch at h
      cases hm : cacheMatch nc.2 u
      · rfl
      · rw [hm] at h; cases h
    have hrest : cachesMatch rest u = none := by
      unfold cachesMatch at h
      rw [hm] at h
      exact h
    by_cases hn : nc.1 = n
    · simp [storagePut, hn, cachesMatch, cacheMatch_put_self]
    · simp [storagePut, hn, cachesMatch, hm, ih hrest]

theorem cachesMatch_storageAddAll_isSome (s : CacheStorage) (n : String)
    (entries : List (String × Response)) (u : String)
    (h : u ∈ entries.map Prod.fst) :
    (cachesMatch (storageAddAll s n entries) u).isSome := by
  induction s with
  | nil =>
    have hs := (cacheMatch_isSome_iff _ u).2 (foldl_put_key_of_mem entries [] u h)
    cases hcm : cacheMatch (entries.foldl (fun c e => cachePut c e.1 e.2) []) u
    · rw [hcm] at hs; cases hs
    · simp [storageAddAll, cachesMatch, hcm]
  | cons nc rest ih =>
    by_cases hn : nc.1 = n
    · have hs := (cacheMatch_isSome_iff _ u).2 (foldl_put_key_of_mem entries nc.2 u h)
      cases hcm : cacheMatch (entries.foldl (fun c e => cachePut c e.1 e.2) nc.2) u
      · rw [hcm] at hs; cases hs
      · simp [storageAddAll, hn, cachesMatch, hcm]
    · cases hcm : cacheMatch nc.2 u
      · simp [storageAddAll, hn, cachesMatch, hcm, ih]
      · simp [storageAddAll, hn, cachesMatch, hcm]

theorem cachePut_inv (c : Cache) (u : String) (r : Response)
    (hc : ∀ e ∈ c, responseOk e.2 = true) (hr : responseOk r = true) :
    ∀ e ∈ cachePut c u r, responseOk e.2 = true := by
  intro e he
  unfold cachePut at he
  rcases List.mem_append.1 he with he | he
  · exact hc e (List.mem_filter.1 he).1
  · have h1 := List.mem_singleton.1 he
    subst h1
    exact hr

theorem foldl_put_inv (entries : List (String × Response)) (c : Cache)
    (hc : ∀ e ∈ c, responseOk e.2 = true)
    (hE : ∀ e ∈ entries, responseOk e.2 = true) :
    ∀ e ∈ entries.foldl (fun c e => cachePut c e.1 e.2) c,
      responseOk e.2 = true := by
  induction entries generalizing c with
  | nil => simpa using hc
  | cons e0 es ih =>
    rw [List.foldl_cons]
    exact ih (cachePut c e0.1 e0.2)
      (cachePut_inv c e0.1 e0.2 hc (hE e0 (List.mem_cons_self e0 es)))
      (fun e he => hE e (List.mem_cons_of_mem e0 he))

theorem storagePut_inv (s : CacheStorage) (n u : String) (r : Response)
    (hs : InvOk s) (hr : responseOk r = true) : InvOk (storagePut s n u r) := by
  induction s with
  | nil =>
    intro nc hnc e he
    simp only [storagePut] at hnc
    have h1 := List.mem_singleton.1 hnc
    subst h1
    exact cachePut_inv [] u r (by simp) hr e he
  | cons nc0 rest ih =>
    intro nc hnc e he
    unfold storagePut at hnc
    by_cases hn : nc0.1 = n
    · rw [if_pos hn] at hnc
      rcases List.mem_cons.1 hnc with h1 | hmem
      · subst h1
        exact cachePut_inv nc0.2 u r
          (fun e1 he1 => hs nc0 (List.mem_cons_self nc0 rest) e1 he1) hr e he
      · exact hs nc (List.mem_cons_of_mem nc0 hmem) e he
    · rw [if_neg hn] at hnc
      rcases List.mem_cons.1 hnc with h1 | hmem
      · exact hs nc (List.mem_cons.2 (Or.inl h1)) e he
      · exact ih (fun nc1 h1 e1 he1 => hs nc1 (List.mem_cons_of_mem nc0 h1) e1 he1)
          nc hmem e he

theorem cachesOpen_inv (s : CacheStorage) (n : String) (hs : InvOk s) :
    InvOk (cachesOpen s n) := by
  induction s with
  | nil =>
    intro nc hnc e he
    simp only [cachesOpen] at hnc
    have h1 := List.mem_singleton.1 hnc
    subst h1
    cases he
  | cons nc0 rest ih =>
    intro nc hnc e he
    unfold cachesOpen at hnc
    by_cases hn : nc0.1 = n
    · rw [if_pos hn] at hnc
      exact hs nc hnc e he
    · rw [if_neg hn] at hnc
      rcases List.mem_cons.1 hnc with h1 | hmem
      · exact hs nc (List.mem_cons.2 (Or.inl h1)) e he
      · exact ih (fun nc1 h1 e1 he1 => hs nc1 (List.mem_cons_of_mem nc0 h1) e1 he1)
          nc hmem e he

theorem storageAddAll_inv (s : CacheStorage) (n : String)
    (entries : List (String × Response)) (hs : InvOk s)
    (hE : ∀ e ∈ entries, responseOk e.2 = true) :
    InvOk (storageAddAll s n entries) := by
  induction s with
  | nil =>
    intro nc hnc e he
    simp only [storageAddAll] at hnc
    have h1 := List.mem_singleton.1 hnc
    subst h1
    exact foldl_put_inv entries [] (by simp) hE e he
  | cons nc0 rest ih =>
    intro nc hnc e he
    unfold storageAddAll at hnc
    by_cases hn : nc0.1 = n
    · rw [if_pos hn] at hnc
      rcases List.mem_cons.1 hnc with h1 | hmem
      · subst h1
        exact foldl_put_inv entries nc0.2
          (fun e1 he1 => hs nc0 (List.mem_cons_self nc0 rest) e1 he1) hE e he
      · exact hs nc (List.mem_cons_of_mem nc0 hmem) e he
    · rw [if_neg hn] at hnc
      rcases List.mem_cons.1 hnc with h1 | hmem
      · exact hs nc (List.mem_cons.2 (Or.inl h1)) e he
      · exact ih (fun nc1 h1 e1 he1 => hs nc1 (List.mem_cons_of_mem nc0 h1) e1 he1)
          nc hmem e he

theorem activate_inv (s : CacheStorage) (hs : InvOk s) : InvOk (activate s) :=
  fun nc hnc e he => hs nc (List.mem_filter.1 hnc).1 e he

theorem handleFetchW_storage_cases (net : Network) (putOk : Bool)
    (s : CacheStorage) (req : Request) :
    (handleFetchW net putOk s req).storage = s ∨
    ∃ r, net req.url = some r ∧ r.status = 200 ∧ r.rtype = ResponseType.basic ∧
      (handleFetchW net putOk s req).storage = storagePut s CACHE_NAME req.url r := by
  unfold handleFetchW
  cases hm : cachesMatch s req.url with
  | some r => exact Or.inl rfl
  | none =>
    dsimp only
    cases hn : net req.url with
    | some r =>
      dsimp only
      by_cases hv : r.status = 200 ∧ r.rtype = ResponseType.basic
      · rw [if_pos hv]
        cases putOk
        · exact Or.inl rfl
        · exact Or.inr ⟨r, rfl, hv.1, hv.2, rfl⟩
      · rw [if_neg hv]
        exact Or.inl rfl
    | none =>
      cases hnav : req.navigate
      · exact Or.inl (by simp [hnav])
      · cases hh : cachesMatch s "/index.html"
        · exact Or.inl (by simp [hnav, hh])
        · exact Or.inl (by simp [hnav, hh])

/-! Claim theorems. -/

/-- C1: after the install step completes successfully, intercepting any
resource identifier of the manifest (in any request mode) returns a response
stored in the cache storage as a cache hit, with zero network fetches. -/
theorem manifest_hit_after_install (net : Network) (s : CacheStorage)
    (u : String) (nav : Bool)
    (hok : (install net s).1 = true) (hu : u ∈ urlsToCache) :
    ∃ r, cachesMatch (install net s).2 u = some r ∧
      (handleFetch net (install net s).2 ⟨u, nav⟩).result = FetchResult.cacheHit r ∧
      (handleFetch net (install net s).2 ⟨u, nav⟩).networkCalls = 0 := by
  cases hf : fetchAll net urlsToCache with
  | none =>
    unfold install at hok
    rw [hf] at hok
    exact absurd hok (by simp)
  | some entries =>
    have h2 : (install net s).2 = storageAddAll s CACHE_NAME entries := by
      unfold install
      rw [hf]
    rw [h2]
    have hk : u ∈ entries.map Prod.fst := by
      rw [fetchAll_keys net urlsToCache entries hf]
      exact hu
    have hs := cachesMatch_storageAddAll_isSome s CACHE_NAME entries u hk
    cases hm : cachesMatch (storageAddAll s CACHE_NAME entries) u with
    | none => rw [hm] at hs; cases hs
    | some r =>
      refine ⟨r, rfl, ?_, ?_⟩ <;> simp [handleFetch, handleFetchW, hm]

/-- Witness for C1: a concrete all-ok network, empty prior storage, and the
manifest URL for the logo. -/
theorem manifest_hit_after_install_witness :
    (install okNet []).1 = true ∧ "/logo.png" ∈ urlsToCache ∧
      ∃ r, cachesMatch (install okNet []).2 "/logo.png" = some r ∧
        (handleFetch okNet (install okNet []).2 ⟨"/logo.png", false⟩).result
          = FetchResult.cacheHit r ∧
        (handleFetch okNet (install okNet []).2 ⟨"/logo.png", false⟩).networkCalls
          = 0 :=
  ⟨rfl, by decide,
    manifest_hit_after_install okNet [] "/logo.png" false rfl (by decide)⟩

/-- C2 counterexample: a `204 No Content` response has a success (2xx) status
and basic type, yet on a cache miss the handler returns it without storing a
clone: the storage is unchanged, refuting the claim that every
success-status, basic-type response is stored. -/
theorem miss_success_not_stored_counterexample :
    responseOk ⟨204, ResponseType.basic, "nc"⟩ = true ∧
    cachesMatch [] "/extra.js" = none ∧
    net204 "/extra.js" = some ⟨204, ResponseType.basic, "nc"⟩ ∧
    (handleFetch net204 [] ⟨"/extra.js", false⟩).result
      = FetchResult.fromNetwork ⟨204, ResponseType.basic, "nc"⟩ ∧
    (handleFetch net204 [] ⟨"/extra.js", false⟩).storage = [] :=
  ⟨rfl, rfl, rfl, rfl, rfl⟩

/-- C2 (amended): on a cache miss exactly one network fetch happens and the
network response is returned to the caller; a clone is stored under the
current generation exactly when the response status is 200 (not merely any
success status) and the type is basic, and otherwise storage is unchanged. -/
theorem miss_network_fetch_and_store (net : Network) (s : CacheStorage)
    (req : Request) (r : Response)
    (hmiss : cachesMatch s req.url = none) (hnet : net req.url = some r) :
    (handleFetch net s req).networkCalls = 1 ∧
    (handleFetch net s req).result = FetchResult.fromNetwork r ∧
    ((r.status = 200 ∧ r.rtype = ResponseType.basic) →
      (handleFetch net s req).storage = storagePut s CACHE_NAME req.url r) ∧
    (¬(r.status = 200 ∧ r.rtype = ResponseType.basic) →
      (handleFetch net s req).storage = s) := by
  unfold handleFetch handleFetchW
  rw [hmiss]
  dsimp only
  rw [hnet]
  dsimp only
  by_cases hv : r.status = 200 ∧ r.rtype = ResponseType.basic
  · rw [if_pos hv]
    exact ⟨rfl, rfl, fun _ => rfl, fun h => absurd hv h⟩
  · rw [if_neg hv]
    exact ⟨rfl, rfl, fun h => absurd h hv, fun _ => rfl⟩

/-- Witness for C2 (amended): a miss on an uncached URL against the all-ok
network stores the fetched 200 basic response. -/
theorem miss_network_fetch_and_store_witness :
    (handleFetch okNet [] ⟨"/extra.js", false⟩).networkCalls = 1 ∧
    (handleFetch okNet [] ⟨"/extra.js", false⟩).result
      = FetchResult.fromNetwork ⟨200, ResponseType.basic, "ok"⟩ ∧
    (handleFetch okNet [] ⟨"/extra.js", false⟩).storage
      = storagePut [] CACHE_NAME "/extra.js" ⟨200, ResponseType.basic, "ok"⟩ :=
  ⟨(miss_network_fetch_and_store okNet [] ⟨"/extra.js", false⟩
      ⟨200, ResponseType.basic, "ok"⟩ rfl rfl).1,
   (miss_network_fetch_and_store okNet [] ⟨"/extra.js", false⟩
      ⟨200, ResponseType.basic, "ok"⟩ rfl rfl).2.1,
   (miss_network_fetch_and_store okNet [] ⟨"/extra.js", false⟩
      ⟨200, ResponseType.basic, "ok"⟩ rfl rfl).2.2.1 ⟨rfl, rfl⟩⟩

/-- C3: on a cache miss whose network fetch fails, nothing is cached; a
non-navigation request surfaces the failure to the caller, and a navigation
request is answered with the stored home document when one is cached. -/
theorem miss_network_failure (net : Network) (s : CacheStorage) (req : Request)
    (hmiss : cachesMatch s req.url = none) (hnet : net req.url = none) :
    (handleFetch net s req).storage = s ∧
    (handleFetch net s req).networkCalls = 1 ∧
    (req.navigate = false → (handleFetch net s req).result = FetchResult.failed) ∧
    (∀ r, req.navigate = true → cachesMatch s "/index.html" = some r →
      (handleFetch net s req).result = FetchResult.offlinePage r) := by
  unfold handleFetch handleFetchW
  rw [hmiss]
  dsimp only
  rw [hnet]
  dsimp only
  cases hnav : req.navigate with
  | false =>
    refine ⟨by simp, by simp, fun _ => by simp, fun r h1 h2 => ?_⟩
    cases h1
  | true =>
    cases hh : cachesMatch s "/index.html" with
    | none =>
      exact ⟨by simp, by simp, fun h1 => Bool.noConfusion h1,
        fun r h1 h2 => Option.noConfusion h2⟩
    | some r0 =>
      refine ⟨by simp, by simp, fun h1 => Bool.noConfusion h1, fun r h1 h2 => ?_⟩
      have h3 := Option.some.inj h2
      subst h3
      simp

/-- Witness for C3: an unreachable network with the home document cached; the
non-navigation request fails with unchanged storage, the navigation request
gets the cached home page. -/
theorem miss_network_failure_witness :
    (handleFetch downNet demoStorage ⟨"/extra.js", false⟩).result
      = FetchResult.failed ∧
    (handleFetch downNet demoStorage ⟨"/extra.js", true⟩).result
      = FetchResult.offlinePage homePage ∧
    (handleFetch downNet demoStorage ⟨"/extra.js", false⟩).storage
      = demoStorage :=
  ⟨(miss_network_failure downNet demoStorage ⟨"/extra.js", false⟩ rfl rfl).2.2.1 rfl,
   (miss_network_failure downNet demoStorage ⟨"/extra.js", true⟩ rfl rfl).2.2.2
      homePage rfl rfl,
   (miss_network_failure downNet demoStorage ⟨"/extra.js", false⟩ rfl rfl).1⟩

/-- C4: if fetching any manifest resource fails during install, the install
step fails as a whole: the step is not marked successful, storage only gains
the freshly opened empty generation, and the entries of the current
generation are unchanged — no partial subset is committed. -/
theorem install_failfast (net : Network) (s : CacheStorage) (u : String)
    (hu : u ∈ urlsToCache) (hfail : net u = none) :
    (install net s).1 = false ∧
    (install net s).2 = cachesOpen s CACHE_NAME ∧
    getCache (install net s).2 CACHE_NAME = getCache s CACHE_NAME := by
  have h := fetchAll_eq_none net urlsToCache u hu hfail
  unfold install
  rw [h]
  exact ⟨rfl, rfl, getCache_cachesOpen s CACHE_NAME⟩

/-- Witness for C4: the fully unreachable network fails install from empty
storage. -/
theorem install_failfast_witness :
    "/" ∈ urlsToCache ∧ downNet "/" = none ∧
    (install downNet []).1 = false ∧
    (install downNet []).2 = cachesOpen [] CACHE_NAME ∧
    getCache (install downNet []).2 CACHE_NAME = getCache [] CACHE_NAME :=
  ⟨by decide, rfl,
    (install_failfast downNet [] "/" (by decide) rfl).1,
    (install_failfast downNet [] "/" (by decide) rfl).2.1,
    (install_failfast downNet [] "/" (by decide) rfl).2.2⟩

/-- C5: after a successful install of the current version from storage with
distinct generation names, activation leaves exactly one generation, the one
named `CACHE_NAME`. -/
theorem activate_single_generation (net : Network) (s : CacheStorage)
    (hnd : (s.map Prod.fst).Nodup) (hok : (install net s).1 = true) :
    (activate (install net s).2).map Prod.fst = [CACHE_NAME] := by
  cases hf : fetchAll net urlsToCache with
  | none =>
    unfold install at hok
    rw [hf] at hok
    exact absurd hok (by simp)
  | some entries =>
    have h2 : (install net s).2 = storageAddAll s CACHE_NAME entries := by
      unfold install
      rw [hf]
    rw [h2, activate_names, storageAddAll_names]
    exact filter_beq_singleton _ CACHE_NAME
      (names_cachesOpen_nodup s CACHE_NAME hnd) (mem_names_cachesOpen s CACHE_NAME)

/-- Witness for C5: install over a storage holding a superseded empty
generation, then activate. -/
theorem activate_single_generation_witness :
    (([("chakabnb-v0", [])] : CacheStorage).map Prod.fst).Nodup ∧
    (install okNet [("chakabnb-v0", [])]).1 = true ∧
    (activate (install okNet [("chakabnb-v0", [])]).2).map Prod.fst
      = [CACHE_NAME] :=
  ⟨by decide, rfl,
    activate_single_generation okNet [("chakabnb-v0", [])] (by decide) rfl⟩

/-- C6 counterexample: with a network whose cross-origin Tailwind CDN URL
resolves with a 200 response of type cors, install succeeds and the stored
entry for that manifest URL is not of basic type, refuting the claim that
every stored entry is captured only for basic-type responses. -/
theorem install_stores_non_basic_counterexample :
    (install corsNet []).1 = true ∧
    cacheMatch (getCache (install corsNet []).2 CACHE_NAME)
        "https://cdn.tailwindcss.com"
      = some ⟨200, ResponseType.cors, "tw"⟩ ∧
    ResponseType.cors ≠ ResponseType.basic :=
  ⟨rfl, rfl, by decide⟩

/-- C6 (amended): every stored entry is captured only from a response with a
success (2xx) status — an invariant preserved by install, by fetch
interception (whether or not the asynchronous write succeeds), and by
activation — but the basic-type guarantee holds only for entries stored at
fetch-interception time: the fetch path either leaves storage unchanged or
stores exactly one response with status 200 and basic type, while
install-time entries may be of non-basic (cross-origin) type. -/
theorem stored_entries_success_invariant (net : Network) (putOk : Bool)
    (s : CacheStorage) (req : Request) (hs : InvOk s) :
    InvOk (install net s).2 ∧
    InvOk ((handleFetchW net putOk s req).storage) ∧
    InvOk (activate s) ∧
    ((handleFetchW net putOk s req).storage = s ∨
      ∃ r, net req.url = some r ∧ r.status = 200 ∧ r.rtype = ResponseType.basic ∧
        (handleFetchW net putOk s req).storage
          = storagePut s CACHE_NAME req.url r) := by
  refine ⟨?_, ?_, activate_inv s hs, handleFetchW_storage_cases net putOk s req⟩
  · unfold install
    cases hf : fetchAll net urlsToCache with
    | none => exact cachesOpen_inv s CACHE_NAME hs
    | some entries =>
      exact storageAddAll_inv s CACHE_NAME entries hs
        (fun e he => (fetchAll_mem_ok net urlsToCache entries hf e he).1)
  · rcases handleFetchW_storage_cases net putOk s req with h | ⟨r, hn, h200, hb, h⟩
    · rw [h]
      exact hs
    · rw [h]
      refine storagePut_inv s CACHE_NAME req.url r hs ?_
      simp [responseOk, h200]

/-- Witness for C6 (amended): the invariant holds for the generation
installed from empty storage over the all-ok network. -/
theorem stored_entries_success_invariant_witness :
    InvOk ([] : CacheStorage) ∧ InvOk (install okNet []).2 :=
  ⟨fun nc h => absurd h (List.not_mem_nil nc),
   (stored_entries_success_invariant okNet true [] ⟨"/a.js", false⟩
      (fun nc h => absurd h (List.not_mem_nil nc))).1⟩

/-- C7 counterexample: a first interception of the uncached, non-manifest URL
`/extra.js` performs one network fetch which succeeds (status 204, a success
status), yet a second interception of the same identifier is not a cache hit:
it performs another network fetch, refuting the claim for responses that are
merely successful. -/
theorem second_fetch_not_hit_counterexample :
    "/extra.js" ∉ urlsToCache ∧
    cachesMatch [] "/extra.js" = none ∧
    net204 "/extra.js" = some ⟨204, ResponseType.basic, "nc"⟩ ∧
    responseOk ⟨204, ResponseType.basic, "nc"⟩ = true ∧
    (handleFetch net204 [] ⟨"/extra.js", false⟩).networkCalls = 1 ∧
    (handleFetch net204 (handleFetch net204 [] ⟨"/extra.js", false⟩).storage
        ⟨"/extra.js", false⟩).result
      = FetchResult.fromNetwork ⟨204, ResponseType.basic, "nc"⟩ ∧
    (handleFetch net204 (handleFetch net204 [] ⟨"/extra.js", false⟩).storage
        ⟨"/extra.js", false⟩).networkCalls = 1 :=
  ⟨by decide, rfl, rfl, rfl, rfl, rfl, rfl⟩

/-- C7 (amended): a first interception of an identifier with no cached entry
performs exactly one network fetch; when the fetch returns a response with
status exactly 200 and basic type, the clone is stored and a second
interception of the same identifier is a cache hit of that response with zero
network fetches. -/
theorem first_miss_then_hit (net : Network) (s : CacheStorage) (u : String)
    (nav : Bool) (r : Response)
    (hmiss : cachesMatch s u = none) (hnet : net u = some r)
    (h200 : r.status = 200) (hb : r.rtype = ResponseType.basic) :
    (handleFetch net s ⟨u, nav⟩).networkCalls = 1 ∧
    (handleFetch net s ⟨u, nav⟩).storage = storagePut s CACHE_NAME u r ∧
    (handleFetch net ((handleFetch net s ⟨u, nav⟩).storage) ⟨u, nav⟩).result
      = FetchResult.cacheHit r ∧
    (handleFetch net ((handleFetch net s ⟨u, nav⟩).storage) ⟨u, nav⟩).networkCalls
      = 0 := by
  have hst : (handleFetch net s ⟨u, nav⟩).storage = storagePut s CACHE_NAME u r := by
    unfold handleFetch handleFetchW
    dsimp only
    rw [hmiss]
    dsimp only
    rw [hnet]
    dsimp only
    rw [if_pos ⟨h200, hb⟩]
    rfl
  have hc1 : (handleFetch net s ⟨u, nav⟩).networkCalls = 1 := by
    unfold handleFetch handleFetchW
    dsimp only
    rw [hmiss]
    dsimp only
    rw [hnet]
    dsimp only
    rw [if_pos ⟨h200, hb⟩]
  have hm2 : cachesMatch (storagePut s CACHE_NAME u r) u = some r :=
    cachesMatch_storagePut_self s CACHE_NAME u r hmiss
  refine ⟨hc1, hst, ?_, ?_⟩ <;> rw [hst] <;>
    simp [handleFetch, handleFetchW, hm2]

/-- Witness for C7 (amended): first and second interception of an uncached
URL against the all-ok network. -/
theorem first_miss_then_hit_witness :
    (handleFetch okNet [] ⟨"/dyn.js", false⟩).networkCalls = 1 ∧
    (handleFetch okNet ((handleFetch okNet [] ⟨"/dyn.js", false⟩).storage)
        ⟨"/dyn.js", false⟩).result
      = FetchResult.cacheHit ⟨200, ResponseType.basic, "ok"⟩ ∧
    (handleFetch okNet ((handleFetch okNet [] ⟨"/dyn.js", false⟩).storage)
        ⟨"/dyn.js", false⟩).networkCalls = 0 :=
  ⟨(first_miss_then_hit okNet [] "/dyn.js" false ⟨200, ResponseType.basic, "ok"⟩
      rfl rfl rfl rfl).1,
   (first_miss_then_hit okNet [] "/dyn.js" false ⟨200, ResponseType.basic, "ok"⟩
      rfl rfl rfl rfl).2.2.1,
   (first_miss_then_hit okNet [] "/dyn.js" false ⟨200, ResponseType.basic, "ok"⟩
      rfl rfl rfl rfl).2.2.2⟩

/-- C8: running install twice with the same version tag and manifest yields
exactly the storage of a single run, and when the current generation held no
duplicate keys beforehand it holds none afterwards. -/
theorem install_idempotent (net : Network) (s : CacheStorage)
    (h : ((getCache s CACHE_NAME).map Prod.fst).Nodup) :
    install net (install net s).2 = install net s ∧
    ((getCache (install net s).2 CACHE_NAME).map Prod.fst).Nodup := by
  have hnd : urlsToCache.Nodup := by decide
  cases hf : fetchAll net urlsToCache with
  | none =>
    have h2 : install net s = (false, cachesOpen s CACHE_NAME) := by
      unfold install
      rw [hf]
    rw [h2]
    constructor
    · show install net (cachesOpen s CACHE_NAME) = (false, cachesOpen s CACHE_NAME)
      unfold install
      rw [hf]
      dsimp only
      rw [cachesOpen_idem]
    · show ((getCache (cachesOpen s CACHE_NAME) CACHE_NAME).map Prod.fst).Nodup
      rw [getCache_cachesOpen]
      exact h
  | some entries =>
    have hkeys : entries.map Prod.fst = urlsToCache :=
      fetchAll_keys net urlsToCache entries hf
    have hknd : (entries.map Prod.fst).Nodup := by
      rw [hkeys]
      exact hnd
    have h2 : install net s = (true, storageAddAll s CACHE_NAME entries) := by
      unfold install
      rw [hf]
    rw [h2]
    constructor
    · show install net (storageAddAll s CACHE_NAME entries)
        = (true, storageAddAll s CACHE_NAME entries)
      unfold install
      rw [hf]
      dsimp only
      rw [storageAddAll_idem s CACHE_NAME entries hknd]
    · show ((getCache (storageAddAll s CACHE_NAME entries) CACHE_NAME).map
        Prod.fst).Nodup
      rw [getCache_storageAddAll, foldl_put_char entries _ hknd, List.map_append]
      refine List.nodup_append.2 ⟨?_, hknd, ?_⟩
      · exact List.Nodup.sublist
          (List.Sublist.map Prod.fst (List.filter_sublist _)) h
      · intro x hx
        obtain ⟨kv, hkv, rfl⟩ := List.mem_map.1 hx
        have hp := (List.mem_filter.1 hkv).2
        simp only [Bool.not_eq_true', decide_eq_false_iff_not] at hp
        exact hp

/-- Witness for C8: double install from empty storage over the all-ok
network. -/
theorem install_idempotent_witness :
    install okNet (install okNet []).2 = install okNet [] ∧
    ((getCache (install okNet []).2 CACHE_NAME).map Prod.fst).Nodup :=
  install_idempotent okNet [] (by decide)

/-- C9: on a miss with a storable (status 200, basic type) network response,
the response delivered to the caller is the network response whether the
asynchronous cache write succeeds or fails; a failed write leaves storage
unchanged and the single network call is performed either way. -/
theorem store_failure_does_not_alter_response (net : Network) (s : CacheStorage)
    (req : Request) (r : Response)
    (hmiss : cachesMatch s req.url = none) (hnet : net req.url = some r)
    (h200 : r.status = 200) (hb : r.rtype = ResponseType.basic) :
    (handleFetchW net true s req).result = FetchResult.fromNetwork r ∧
    (handleFetchW net false s req).result = FetchResult.fromNetwork r ∧
    (handleFetchW net false s req).storage = s ∧
    (handleFetchW net false s req).networkCalls
      = (handleFetchW net true s req).networkCalls := by
  have hv : r.status = 200 ∧ r.rtype = ResponseType.basic := ⟨h200, hb⟩
  unfold handleFetchW
  rw [hmiss]
  dsimp only
  rw [hnet]
  dsimp only
  simp only [if_pos hv]
  exact ⟨trivial, trivial, rfl, trivial⟩

/-- Witness for C9: a miss over the all-ok network, comparing the run with a
successful write against the run with a failed write. -/
theorem store_failure_does_not_alter_response_witness :
    (handleFetchW okNet true [] ⟨"/w.js", false⟩).result
      = FetchResult.fromNetwork ⟨200, ResponseType.basic, "ok"⟩ ∧
    (handleFetchW okNet false [] ⟨"/w.js", false⟩).result
      = FetchResult.fromNetwork ⟨200, ResponseType.basic, "ok"⟩ ∧
    (handleFetchW okNet false [] ⟨"/w.js", false⟩).storage = [] ∧
    (handleFetchW okNet false [] ⟨"/w.js", false⟩).networkCalls
      = (handleFetchW okNet true [] ⟨"/w.js", false⟩).networkCalls :=
  store_failure_does_not_alter_response okNet [] ⟨"/w.js", false⟩
    ⟨200, ResponseType.basic, "ok"⟩ rfl rfl rfl rfl

/-- C10: activation never deletes or modifies the current generation — the
contents of the `CACHE_NAME` cache are exactly what they were before — and
every generation surviving activation is one of the original generations and
is named `CACHE_NAME`, so only differently named generations are affected. -/
theorem activate_frame (s : CacheStorage) :
    getCache (activate s) CACHE_NAME = getCache s CACHE_NAME ∧
    ∀ nc ∈ activate s, nc ∈ s ∧ nc.1 = CACHE_NAME := by
  refine ⟨getCache_activate s, fun nc hnc => ?_⟩
  unfold activate at hnc
  have h1 := List.mem_filter.1 hnc
  exact ⟨h1.1, by simpa using h1.2⟩

/-- Witness for C10 at a storage holding a superseded and the current
generation. -/
theorem activate_frame_witness :
    getCache (activate demoOld) CACHE_NAME = getCache demoOld CACHE_NAME ∧
    activate demoOld = [("chakabnb-v1", [("/index.html", homePage)])] :=
  ⟨(activate_frame demoOld).1, rfl⟩

end SW
